import Mathlib

/-!
Verification of the layout-inference core of the pdf2excel repository.

The definitions below are shallow embeddings of the Python functions in
`src/utils/intelligent_pdf_reader.py` and `src/utils/pdf_like_writer.py`:
pure Python functions become Lean functions, Python dicts with insertion
order become association lists, Python floats are modelled exactly as
IEEE-754 binary64 values (a mantissa/exponent pair of integers, with
round-to-nearest-even at 53 significand bits), and fallible conversions
return `Option`.
-/

set_option maxRecDepth 40000

namespace PdfToExcel

/-! ## Grid layout planner

Embeds `_calculate_optimal_column_layout` from
`src/utils/intelligent_pdf_reader.py` (lines 1282-1336, tier-dependent;
the Python signature also takes `has_headers` and `row_idx`, which the
body never reads, so they are omitted here) and the tier-independent
`_calculate_optimal_column_layout` from `src/utils/pdf_like_writer.py`
(lines 226-246). -/
/-- Table complexity tier, as produced by `_assess_table_complexity`. -/
inductive Tier where
  | simple
  | medium
  | complex
deriving DecidableEq, Repr

/-- `_calculate_optimal_column_layout` of `intelligent_pdf_reader.py`:
column span plan for a table row with `num_cols` non-empty cells. -/
def calculate_optimal_column_layout (num_cols : ℕ) (complexity : Tier) :
    List (ℕ × ℕ) :=
  match complexity with
  | .complex =>
    if num_cols = 1 then [(1, 8)]
    else if num_cols = 2 then [(1, 4), (5, 8)]
    else if num_cols = 3 then [(1, 2), (3, 5), (6, 8)]
    else if num_cols = 4 then [(1, 2), (3, 4), (5, 6), (7, 8)]
    else if num_cols = 5 then [(1, 1), (2, 3), (4, 4), (5, 6), (7, 8)]
    else if num_cols = 6 then [(1, 1), (2, 2), (3, 4), (5, 5), (6, 7), (8, 8)]
    else if num_cols = 7 then
      [(1, 1), (2, 2), (3, 3), (4, 4), (5, 5), (6, 6), (7, 8)]
    else if num_cols = 8 then
      [(1, 1), (2, 2), (3, 3), (4, 4), (5, 5), (6, 6), (7, 7), (8, 8)]
    else (List.range (min num_cols 8)).map (fun i => (i + 1, i + 1))
  | .medium =>
    if num_cols = 1 then [(1, 8)]
    else if num_cols = 2 then [(1, 4), (5, 8)]
    else if num_cols = 3 then [(1, 2), (3, 5), (6, 8)]
    else if num_cols = 4 then [(1, 2), (3, 4), (5, 6), (7, 8)]
    else if num_cols = 5 then [(1, 1), (2, 3), (4, 4), (5, 6), (7, 8)]
    else (List.range (min num_cols 8)).map (fun i => (i + 1, i + 1))
  | .simple =>
    if num_cols = 1 then [(1, 8)]
    else if num_cols = 2 then [(1, 4), (5, 8)]
    else if num_cols = 3 then [(1, 2), (3, 5), (6, 8)]
    else if num_cols = 4 then [(1, 2), (3, 4), (5, 6), (7, 8)]
    else if num_cols = 5 then [(1, 1), (2, 3), (4, 4), (5, 6), (7, 8)]
    else (List.range (min num_cols 8)).map (fun i => (i + 1, i + 1))

/-- `_calculate_optimal_column_layout` of `pdf_like_writer.py`
(tier-independent variant). -/
def pdf_like_column_layout (num_cols : ℕ) : List (ℕ × ℕ) :=
  if num_cols = 1 then [(1, 8)]
  else if num_cols = 2 then [(1, 4), (5, 8)]
  else if num_cols = 3 then [(1, 2), (3, 5), (6, 8)]
  else if num_cols = 4 then [(1, 2), (3, 4), (5, 6), (7, 8)]
  else if num_cols = 5 then [(1, 1), (2, 3), (4, 4), (5, 6), (7, 8)]
  else if num_cols = 6 then [(1, 1), (2, 2), (3, 3), (4, 4), (5, 6), (7, 8)]
  else if num_cols = 7 then
    [(1, 1), (2, 2), (3, 3), (4, 4), (5, 5), (6, 6), (7, 8)]
  else if num_cols = 8 then
    [(1, 1), (2, 2), (3, 3), (4, 4), (5, 5), (6, 6), (7, 7), (8, 8)]
  else (List.range (min num_cols 8)).map (fun i => (i + 1, i + 1))

/-- Each span ends strictly before the next one starts: the spans are
non-overlapping and strictly increasing. -/
def spansIncreasing : List (ℕ × ℕ) → Bool
  | [] => true
  | [_] => true
  | a :: b :: rest => decide (a.2 < b.1) && spansIncreasing (b :: rest)

/-- The well-formedness properties a `ColumnSpanPlan` is claimed to have:
exactly `n` entries, every span well-formed, spans strictly increasing and
non-overlapping, first span starting at column 1, last span ending at
column `lastEnd`. -/
abbrev planOK (p : List (ℕ × ℕ)) (n lastEnd : ℕ) : Prop :=
  p.length = n ∧
  (∀ ab ∈ p, ab.1 ≤ ab.2) ∧
  spansIncreasing p = true ∧
  p.head?.map Prod.fst = some 1 ∧
  p.getLast?.map Prod.snd = some lastEnd

/-! ## Python floats, exactly

`_convert_color_to_hex` computes `int(color[0] * 255)` on Python floats
(IEEE-754 binary64).  A finite double is exactly a value `m * 2^e` with
`|m| < 2^53`; we embed doubles as such mantissa/exponent pairs and model
the binary64 operations (decimal-literal parsing, multiplication) with
exact integer arithmetic followed by round-to-nearest, ties-to-even at 53
significand bits.  Overflow and the subnormal loss of precision below
2^(-1074) are outside the range exercised here and are not modelled. -/
/-- Fuel-driven base-2 logarithm: for `1 ≤ n < 2^fuel`,
`2^(posLog2 fuel n) ≤ n < 2^(posLog2 fuel n + 1)`. -/
def posLog2 : ℕ → ℕ → ℕ
  | 0, _ => 0
  | fuel + 1, n => if 2 ≤ n then posLog2 fuel (n / 2) + 1 else 0

/-- A binary64 value `m * 2^e` (not necessarily normalised). -/
structure Dbl where
  m : ℤ
  e : ℤ
deriving DecidableEq, Repr

/-- The rational value of an embedded double. -/
def dblVal (d : Dbl) : ℚ := (d.m : ℚ) * (2 : ℚ) ^ d.e

/-- Round `m * 2^e` to at most 53 significand bits, ties to even. -/
def round53 (m : ℤ) (e : ℤ) : Dbl :=
  let n := m.natAbs
  let L := posLog2 4000 n
  if L ≤ 52 then ⟨m, e⟩
  else
    let sh := L - 52
    let q := n / 2 ^ sh
    let r := n % 2 ^ sh
    let half := 2 ^ (sh - 1)
    let qr := if r < half then q
              else if half < r then q + 1
              else if q % 2 = 0 then q else q + 1
    ⟨if m < 0 then -(qr : ℤ) else (qr : ℤ), e + (sh : ℤ)⟩

/-- Scaling shift used when converting a decimal literal to a double. -/
def litScale : ℕ := 1200

/-- The binary64 double nearest to `a / b` (round to nearest, ties to
even), for positive rationals within the normal range; this is the value
a Python literal such as `0.6` denotes (as `pyFloatLit 6 10`). -/
def pyFloatLit (a b : ℕ) : Dbl :=
  if a = 0 ∨ b = 0 then ⟨0, 0⟩
  else
    let n := a * 2 ^ litScale / b
    let r := a * 2 ^ litScale % b
    let L := posLog2 4000 n
    if L ≤ 52 then ⟨(n : ℤ), -(litScale : ℤ)⟩
    else
      let sh := L - 52
      let q := n / 2 ^ sh
      let rem := n % 2 ^ sh
      let lhs := 2 * (rem * b + r)
      let rhs := 2 ^ sh * b
      let qr := if lhs < rhs then q
                else if rhs < lhs then q + 1
                else if q % 2 = 0 then q else q + 1
      ⟨(qr : ℤ), (sh : ℤ) - (litScale : ℤ)⟩

/-- Binary64 multiplication by the exact integer 255: the exact product
`m * 255 * 2^e`, rounded back to 53 significand bits. -/
def dblMul255 (d : Dbl) : Dbl := round53 (d.m * 255) d.e

/-- Python `int()` on a double: truncation toward zero. -/
def dblTrunc (d : Dbl) : ℤ :=
  if 0 ≤ d.e then d.m * ((2 ^ d.e.toNat : ℕ) : ℤ)
  else
    let p : ℕ := 2 ^ (-d.e).toNat
    if 0 ≤ d.m then ((d.m.toNat / p : ℕ) : ℤ)
    else -(((-d.m).toNat / p : ℕ) : ℤ)

/-- `int(c * 255)` on a double `c`, as computed by Python. -/
def pyByte (d : Dbl) : ℤ := dblTrunc (dblMul255 d)

/-! ## Color canonicalisation

Embeds `_convert_color_to_hex` (`intelligent_pdf_reader.py`, lines
265-283).  A raw color is an RGB integer, a float triple, or a string. -/
/-- A raw color observation as received from the extraction layer. -/
inductive PyColor where
  | int (n : ℤ)
  | floats (r g b : Dbl)
  | str (s : String)
deriving DecidableEq, Repr

/-- Python truthiness of a color value: `0` and `""` are falsy, every
float triple (a non-empty tuple) is truthy.  The extraction loops guard
each observation with `if color:` before converting it. -/
def truthyColor : PyColor → Bool
  | .int n => decide (n ≠ 0)
  | .floats _ _ _ => true
  | .str s => decide (s ≠ "")

/-- Hexadecimal digit characters, uppercase (Python `"%X"`). -/
def hexDigitChar (n : ℕ) : Char := "0123456789ABCDEF".data.getD n '0'

/-- Fuel-driven uppercase hexadecimal digits of `n`, most significant
first. -/
def hexAux : ℕ → ℕ → List Char
  | 0, _ => []
  | fuel + 1, n =>
    if n < 16 then [hexDigitChar n]
    else hexAux fuel (n / 16) ++ [hexDigitChar (n % 16)]

/-- Uppercase hexadecimal digits of a natural number. -/
def natToHex (n : ℕ) : List Char := hexAux 32 n

/-- Left-pad with `'0'` to width `w` (no truncation), as Python's
zero-padded format specifications do. -/
def padLeft (w : ℕ) (l : List Char) : List Char :=
  List.replicate (w - l.length) '0' ++ l

/-- Python `f"{n:0wX}"`: zero-padded uppercase hex of an integer; for a
negative integer the sign counts toward the width. -/
def pyHexPad (w : ℕ) (n : ℤ) : List Char :=
  if 0 ≤ n then padLeft w (natToHex n.toNat)
  else '-' :: padLeft (w - 1) (natToHex (-n).toNat)

/-- `_convert_color_to_hex`: canonicalise a raw color; `none` models the
Python `None` return for unrecognised formats. -/
def convert_color_to_hex : PyColor → Option String
  | .int n => some (String.mk ('F' :: 'F' :: pyHexPad 6 n))
  | .floats r g b =>
    some (String.mk ('F' :: 'F' ::
      (pyHexPad 2 (pyByte r) ++ pyHexPad 2 (pyByte g) ++ pyHexPad 2 (pyByte b))))
  | .str s =>
    if s.data.head? = some '#' then
      if s.length = 7 then some (String.mk ('F' :: 'F' :: s.data.drop 1))
      else some s
    else if s.length = 6 then some (String.mk ('F' :: 'F' :: s.data))
    else none

/-! ## Color parsing and brightness

Embeds `_get_color_brightness`, `_is_suitable_header_color`,
`_is_dark_color` and `_create_border_color` (`intelligent_pdf_reader.py`,
lines 350-400). -/
/-- Value of one hexadecimal digit character, as accepted by Python's
`int(_, 16)` on a two-character slice of a color string.  (Python's parser
additionally tolerates surrounding whitespace and a sign; those forms are
reachable only from exotic raw-color observations outside the well-formed
range quantified over below, and are not modelled.) -/
def hexDigVal (c : Char) : Option ℕ :=
  let v := c.toNat
  if 48 ≤ v ∧ v ≤ 57 then some (v - 48)
  else if 65 ≤ v ∧ v ≤ 70 then some (v - 55)
  else if 97 ≤ v ∧ v ≤ 102 then some (v - 87)
  else none

/-- Python `int(s, 16)` on a two-character slice. -/
def hexPairVal (c1 c2 : Char) : Option ℕ :=
  match hexDigVal c1, hexDigVal c2 with
  | some x, some y => some (16 * x + y)
  | _, _ => none

/-- Parse `s[2:4]`, `s[4:6]`, `s[6:8]` of an `AARRGGBB`-style string as
the red/green/blue bytes; `none` models the `ValueError` path (string too
short, or a slice fails to parse). -/
def parseRGB (s : String) : Option (ℕ × ℕ × ℕ) :=
  match s.data with
  | _ :: _ :: r1 :: r2 :: g1 :: g2 :: b1 :: b2 :: _ =>
    match hexPairVal r1 r2, hexPairVal g1 g2, hexPairVal b1 b2 with
    | some r, some g, some b => some (r, g, b)
    | _, _, _ => none
  | _ => none

/-- `_get_color_brightness`: perceptual luma `int((r*299+g*587+b*114)/1000)`,
with 128 returned when the string is too short or fails to parse.  (For
byte triples, truncating the Python float quotient agrees exactly with
natural-number division by 1000.) -/
def get_color_brightness (s : String) : ℕ :=
  match parseRGB s with
  | some (r, g, b) => (r * 299 + g * 587 + b * 114) / 1000
  | none => 128

/-- `_is_suitable_header_color`: brightness in [40, 180]. -/
def is_suitable_header_color (s : String) : Bool :=
  decide (40 ≤ get_color_brightness s ∧ get_color_brightness s ≤ 180)

/-- `_is_dark_color`: float luma `< 128`, i.e. exactly
`r*299 + g*587 + b*114 < 128000`; `false` on parse failure. -/
def is_dark_color (s : String) : Bool :=
  match parseRGB s with
  | some (r, g, b) => decide (r * 299 + g * 587 + b * 114 < 128000)
  | none => false

/-- `_create_border_color`: lighten each channel by 40 (clamped to 255);
`none` models the `return None` path on parse failure. -/
def create_border_color (s : String) : Option String :=
  match parseRGB s with
  | some (r, g, b) =>
    some (String.mk ('F' :: 'F' ::
      (pyHexPad 2 ((min 255 (r + 40) : ℕ) : ℤ) ++
       pyHexPad 2 ((min 255 (g + 40) : ℕ) : ℤ) ++
       pyHexPad 2 ((min 255 (b + 40) : ℕ) : ℤ))))
  | none => none

/-! ## Frequency tallies and the color-theme resolver

Embeds the tallying loops of `_extract_colors` (lines 196-263) and
`_determine_table_colors` (lines 285-348).  A Python dict with insertion
order becomes an association list in first-seen order. -/
/-- `freq[key] = freq.get(key, 0) + 1` on an insertion-ordered dict. -/
def insertOrIncr (l : List (String × ℕ)) (k : String) : List (String × ℕ) :=
  if l.any (fun p => p.1 = k) then
    l.map (fun p => if p.1 = k then (p.1, p.2 + 1) else p)
  else l ++ [(k, 1)]

/-- The canonical key an observation contributes, if any: the observation
must be truthy (`if color:`) and convert successfully. -/
def obsKey (c : PyColor) : Option String :=
  if truthyColor c then convert_color_to_hex c else none

/-- The frequency tally a list of observations builds, in first-seen
order. -/
def buildFreq (obs : List PyColor) : List (String × ℕ) :=
  obs.foldl (fun acc c =>
    match obsKey c with
    | some k => insertOrIncr acc k
    | none => acc) []

/-- Stable insertion step for descending-by-count order: an element is
placed after every element with a strictly greater or equal count that
precedes it. -/
def insertDesc (x : String × ℕ) : List (String × ℕ) → List (String × ℕ)
  | [] => [x]
  | y :: ys => if x.2 < y.2 then y :: insertDesc x ys else x :: y :: ys

/-- Python's `sorted(freq.items(), key=lambda x: x[1], reverse=True)`:
stable descending sort by count (ties keep first-seen order). -/
def sortByCountDesc (l : List (String × ℕ)) : List (String × ℕ) :=
  l.foldr insertDesc []

/-- Python `max(x :: xs, key=brightness)`: the first element attaining the
maximal brightness. -/
def maxBrightFirst (x : String) (xs : List String) : String :=
  xs.foldl (fun best c =>
    if get_color_brightness best < get_color_brightness c then c else best) x

/-- Python `min(x :: xs, key=brightness)`: the first element attaining the
minimal brightness. -/
def minBrightFirst (x : String) (xs : List String) : String :=
  xs.foldl (fun best c =>
    if get_color_brightness c < get_color_brightness best then c else best) x

/-- The resolved table color theme; `none` is Python's `None` ("use the
platform default"). -/
structure TableColorTheme where
  header_bg : Option String
  header_text : Option String
  data_bg_primary : Option String
  data_bg_alternate : Option String
  data_text : Option String
  border_color : Option String
deriving DecidableEq, Repr

/-- The `header_bg` computation of `_determine_table_colors`: the first
suitable color in descending-frequency order, else the fixed light gray;
absent when the fill tally is empty. -/
def headerBgOf (bg_freq : List (String × ℕ)) : Option String :=
  if bg_freq.isEmpty then none
  else
    match (sortByCountDesc bg_freq).find?
        (fun p => is_suitable_header_color p.1) with
    | some p => some p.1
    | none => some "FFE5E5E5"

/-- The `data_bg_alternate` computation of `_determine_table_colors`:
the lightest fill color of brightness above 240, if any. -/
def dataBgAlternateOf (bg_freq : List (String × ℕ)) : Option String :=
  if bg_freq.isEmpty then none
  else
    match (bg_freq.map Prod.fst).filter
        (fun c => 240 < get_color_brightness c) with
    | [] => none
    | x :: xs => some (maxBrightFirst x xs)

/-- The `data_text` computation of `_determine_table_colors`: the darkest
text color of brightness below 128, if any. -/
def dataTextOf (text_freq : List (String × ℕ)) : Option String :=
  if text_freq.isEmpty then none
  else
    match (text_freq.map Prod.fst).filter
        (fun c => get_color_brightness c < 128) with
    | [] => none
    | x :: xs => some (minBrightFirst x xs)

/-- The `border_color` computation of `_determine_table_colors`: the most
frequent dark stroke color, else black; with no strokes, a lightened
version of `header_bg`, else black. -/
def borderColorOf (border_freq : List (String × ℕ))
    (header_bg : Option String) : Option String :=
  if ¬ border_freq.isEmpty then
    match (sortByCountDesc border_freq).find?
        (fun p => get_color_brightness p.1 < 100) with
    | some p => some p.1
    | none => some "FF000000"
  else
    match header_bg with
    | some hb => create_border_color hb
    | none => some "FF000000"

/-- The `header_text` computation of `_determine_table_colors`: white on a
dark header background, black on a light one, absent without one. -/
def headerTextOf (header_bg : Option String) : Option String :=
  match header_bg with
  | some hb => some (if is_dark_color hb then "FFFFFFFF" else "FF000000")
  | none => none

/-- `_determine_table_colors`: derive the theme from the text, shape-fill
and shape-stroke frequency tallies. -/
def determine_table_colors
    (text_freq bg_freq border_freq : List (String × ℕ)) : TableColorTheme :=
  ⟨headerBgOf bg_freq, headerTextOf (headerBgOf bg_freq), none,
   dataBgAlternateOf bg_freq, dataTextOf text_freq,
   borderColorOf border_freq (headerBgOf bg_freq)⟩

/-- The full resolver: tally the three observation channels as
`_extract_colors` does, then derive the theme. -/
def resolveTheme (textObs fillObs strokeObs : List PyColor) : TableColorTheme :=
  determine_table_colors (buildFreq textObs) (buildFreq fillObs)
    (buildFreq strokeObs)

/-- The wire format claimed for populated theme colors: exactly 8 hex
digits, starting with the alpha byte `FF`. -/
def validColor (s : String) : Prop :=
  s.length = 8 ∧ s.data.take 2 = ['F', 'F'] ∧ ∀ c ∈ s.data, (hexDigVal c).isSome

instance (s : String) : Decidable (validColor s) :=
  inferInstanceAs (Decidable (_ ∧ _ ∧ _))

/-! ## Tally and sorting lemmas

The resolver is a function of the per-channel tallies; the lemmas below
characterise a tally as the first-seen-ordered list of keys paired with
their occurrence counts, and the frequency sort as a stable descending
permutation. -/
/-- The canonical keys contributed by a list of observations, in order. -/
def obsKeys (l : List PyColor) : List String := l.filterMap obsKey

/-- Tally a list of keys into an insertion-ordered frequency list. -/
def tally (ks : List String) : List (String × ℕ) :=
  ks.foldl insertOrIncr []

/-- First occurrence of each element, in order of first appearance. -/
def dedupFirst : List String → List String
  | [] => []
  | x :: xs => x :: (dedupFirst xs).filter (fun y => y ≠ x)

/-! ## Wire-format validity of the resolved theme (C5) -/
/-- A genuine binary64 double in [0, 1]: mantissa within 53 bits and value
between 0 and 1. -/
def dblOK (d : Dbl) : Prop :=
  d.m.natAbs < 2 ^ 53 ∧ 0 ≤ dblVal d ∧ dblVal d ≤ 1

/-- The well-formed raw colors the extraction layer actually produces:
RGB integers in [0, 0xFFFFFF] and float triples of doubles in [0, 1]. -/
def wellformedColor : PyColor → Prop
  | .int n => 0 ≤ n ∧ n ≤ 0xFFFFFF
  | .floats r g b => dblOK r ∧ dblOK g ∧ dblOK b
  | .str _ => False

instance (d : Dbl) : Decidable (dblOK d) :=
  inferInstanceAs (Decidable (_ ∧ _ ∧ _))

instance : ∀ c : PyColor, Decidable (wellformedColor c)
  | .int n => inferInstanceAs (Decidable (0 ≤ n ∧ n ≤ 0xFFFFFF))
  | .floats r g b => inferInstanceAs (Decidable (dblOK r ∧ dblOK g ∧ dblOK b))
  | .str _ => inferInstanceAs (Decidable False)

/-! ## Numeric-cell detection

Embeds `_is_numeric` (`intelligent_pdf_reader.py`, lines 1338-1349) and
the float-literal grammar of Python's `float()` builtin (decimal mantissa
with optional single underscores between digits, optional exponent,
`inf`/`infinity`/`nan`, surrounding whitespace).  Locale-specific and
non-ASCII digit forms are not modelled. -/
/-- Whitespace as stripped by Python's `str.strip()` and `float()`. -/
def isPyWs (c : Char) : Bool :=
  [' ', '\t', '\n', '\r', '\x0b', '\x0c'].contains c

/-- Strip leading and trailing whitespace from a character list. -/
def trimWs (l : List Char) : List Char :=
  ((l.dropWhile isPyWs).reverse.dropWhile isPyWs).reverse

/-- Python `str.strip()`. -/
def pyStrip (s : String) : String := String.mk (trimWs s.data)

/-- Consume the rest of a digit run after an initial digit: further digits
and single underscores that sit between digits (fuel-driven; the fuel is
the input length, each step consumes at least one character). -/
def digitsRestF : ℕ → List Char → List Char
  | 0, l => l
  | _ + 1, [] => []
  | fuel + 1, c :: rest =>
    if c.isDigit then digitsRestF fuel rest
    else if c = '_' then
      match rest with
      | d :: r2 => if d.isDigit then digitsRestF fuel r2 else c :: rest
      | [] => c :: rest
    else c :: rest

/-- Consume a digit run (`digit (('_')? digit)*`); `none` when the input
does not start with a digit, otherwise the unconsumed remainder. -/
def consumeDigits : List Char → Option (List Char)
  | [] => none
  | c :: rest => if c.isDigit then some (digitsRestF rest.length rest) else none

/-- Accept an optional exponent part (`[eE][+-]?digits`) consuming the
whole remaining input. -/
def expOk : List Char → Bool
  | [] => true
  | c :: rest =>
    if c = 'e' ∨ c = 'E' then
      let rest2 := match rest with
        | s :: r2 => if s = '+' ∨ s = '-' then r2 else s :: r2
        | [] => []
      match consumeDigits rest2 with
      | some [] => true
      | _ => false
    else false

/-- Accept a decimal mantissa (digits, digits `.` digits?, or `.` digits)
followed by an optional exponent, consuming the whole input. -/
def mantExpOk (l : List Char) : Bool :=
  match consumeDigits l with
  | some rest =>
    match rest with
    | '.' :: r2 =>
      match consumeDigits r2 with
      | some r3 => expOk r3
      | none => expOk r2
    | _ => expOk rest
  | none =>
    match l with
    | '.' :: r2 =>
      match consumeDigits r2 with
      | some r3 => expOk r3
      | none => false
    | _ => false

/-- Accept `inf`, `infinity` or `nan`, case-insensitively. -/
def infNanOk (l : List Char) : Bool :=
  let w := l.map Char.toLower
  w = ['i', 'n', 'f'] ∨ w = ['i', 'n', 'f', 'i', 'n', 'i', 't', 'y'] ∨
    w = ['n', 'a', 'n']

/-- Whether Python's `float()` accepts the string. -/
def pyFloatOk (l : List Char) : Bool :=
  match trimWs l with
  | [] => false
  | c :: rest =>
    let body := if c = '+' ∨ c = '-' then rest else c :: rest
    infNanOk body ∨ mantExpOk body

/-- `_is_numeric`: empty, blank and bare "-" strings are not numeric;
otherwise strip the text, drop every comma, dollar, percent and minus
sign, and test whether `float()` accepts the remainder. -/
def is_numeric (text : String) : Bool :=
  if text = "" ∨ pyStrip text = "" ∨ pyStrip text = "-" then false
  else pyFloatOk ((pyStrip text).data.filter (fun ch =>
    ch ≠ ',' ∧ ch ≠ '$' ∧ ch ≠ '%' ∧ ch ≠ '-'))

/-- `_detect_headers`: a table has headers when the count of non-empty
non-numeric cells in the first row exceeds half the TOTAL number of cells
in that row (empty cells included in the denominator). -/
def detect_headers (table : List (List String)) : Bool :=
  if table.length < 2 then false
  else
    decide (2 * (table.headI.countP
      (fun cell => cell ≠ "" && !(is_numeric cell))) > table.headI.length)

/-- The header rule as the claim words it: more than half of the NON-EMPTY
cells of the first row are non-numeric (empty cells excluded from the
denominator).  Stated for comparison with `detect_headers`. -/
def detect_headers_spec (table : List (List String)) : Bool :=
  if table.length < 2 then false
  else
    decide (2 * ((table.headI.filter (fun cell => cell ≠ "")).countP
      (fun cell => !(is_numeric cell))) >
      (table.headI.filter (fun cell => cell ≠ "")).length)

/-! ## Text-span classification

Embeds `_classify_text_block` (`intelligent_pdf_reader.py`, lines
463-495): priority-ordered rules over font size, boldness, casing and
keyword sets. -/
/-- The closed classification tags. -/
inductive BlockType where
  | main_header
  | section_header
  | label
  | data
  | footer
  | text
deriving DecidableEq, Repr

/-- Python `str.upper()` (ASCII scope). -/
def pyUpper (s : String) : String := String.mk (s.data.map Char.toUpper)

/-- Python `str.lower()` (ASCII scope). -/
def pyLower (s : String) : String := String.mk (s.data.map Char.toLower)

/-- Python `str.isupper()`: at least one cased character and no lowercase
cased character (alphabetic ASCII approximates "cased" here). -/
def pyIsUpper (s : String) : Bool :=
  s.data.any (fun c => c.isAlpha) &&
    s.data.all (fun c => !c.isAlpha || c.isUpper)

/-- Python `needle in hay` on strings: substring containment. -/
def containsSub (hay needle : String) : Bool :=
  hay.data.tails.any (fun t => needle.data.isPrefixOf t)

/-- `any(word in hay for word in needles)`. -/
def containsAny (hay : String) (needles : List String) : Bool :=
  needles.any (fun w => containsSub hay w)

/-- Keyword set of the section-header rule. -/
def section_keywords : List String :=
  ["CURRENT", "EARNINGS", "STATEMENT", "SUMMARY", "DEDUCTION", "DETAILS",
   "TOTAL"]

/-- Keyword set of the label rule. -/
def label_keywords : List String :=
  ["EMPLOYEE", "NAME", "PERIOD", "DATE", "STATUS"]

/-- Rule 1: main headers are large and bold. -/
def main_header_rule (font_size : ℚ) (is_bold : Bool) : Bool :=
  decide (14 < font_size) && is_bold

/-- Rule 2: section headers are bold-and-medium or fully uppercase, and
mention a section keyword (checked against the upper-cased, stripped
text). -/
def section_header_rule (text : String) (font_size : ℚ) (is_bold : Bool) :
    Bool :=
  ((is_bold && decide (10 < font_size)) || pyIsUpper text) &&
    containsAny (pyStrip (pyUpper text)) section_keywords

/-- Rule 3: labels contain a colon or a label keyword. -/
def label_rule (text : String) : Bool :=
  text.data.contains ':' ||
    containsAny (pyStrip (pyUpper text)) label_keywords

/-- Rule 4: data contains a dollar sign or a digit. -/
def data_rule (text : String) : Bool :=
  text.data.any (fun c => c = '$' || c.isDigit)

/-- Rule 5: footers are small or mention a copyright marker (the first
keyword reproduces the source's mis-encoded copyright sign). -/
def footer_rule (text : String) (font_size : ℚ) : Bool :=
  decide (font_size < 10) ||
    containsAny (pyLower text) ["Â©", "copyright", "inc"]

/-- `_classify_text_block`: the first matching rule wins; the bold flag is
bit 4 of the span's font flags. -/
def classify_text_block (text : String) (font_size : ℚ) (flags : ℕ) :
    BlockType :=
  let is_bold := decide ((flags &&& 16) ≠ 0)
  if main_header_rule font_size is_bold then .main_header
  else if section_header_rule text font_size is_bold then .section_header
  else if label_rule text then .label
  else if data_rule text then .data
  else if footer_rule text font_size then .footer
  else .text

/-! ## Overlap filter

Embeds `_filter_overlapping_text` (`intelligent_pdf_reader.py`, lines
1116-1147): drop text blocks intersecting any table box eroded by 5
points. -/
/-- A text block's bounding box (page points). -/
structure SpanBox where
  x : ℚ
  y : ℚ
  width : ℚ
  height : ℚ
deriving DecidableEq, Repr

/-- A detected table's bounding box (page points). -/
structure TableBox where
  x : ℚ
  y : ℚ
  width : ℚ
  height : ℚ
deriving DecidableEq, Repr

/-- The overlap test of `_filter_overlapping_text`: the text box meets the
table box shrunk by 5 points on every side (all strict inequalities). -/
def overlaps_table (b : SpanBox) (t : TableBox) : Prop :=
  b.x < t.x + t.width - 5 ∧ t.x + 5 < b.x + b.width ∧
  b.y < t.y + t.height - 5 ∧ t.y + 5 < b.y + b.height

instance (b : SpanBox) (t : TableBox) : Decidable (overlaps_table b t) :=
  inferInstanceAs (Decidable (_ ∧ _ ∧ _ ∧ _))

/-- `_filter_overlapping_text`: keep the blocks overlapping no table. -/
def filter_overlapping_text (blocks : List SpanBox) (tables : List TableBox) :
    List SpanBox :=
  blocks.filter (fun b => !(tables.any (fun t => decide (overlaps_table b t))))

/-- The claim's hypothesis for removal: the span box lies entirely inside
the table box eroded by 5 points on every side. -/
def inside_eroded (b : SpanBox) (t : TableBox) : Prop :=
  t.x + 5 ≤ b.x ∧ b.x + b.width ≤ t.x + t.width - 5 ∧
  t.y + 5 ≤ b.y ∧ b.y + b.height ≤ t.y + t.height - 5

instance (b : SpanBox) (t : TableBox) : Decidable (inside_eroded b t) :=
  inferInstanceAs (Decidable (_ ∧ _ ∧ _ ∧ _))

/-- The claim's hypothesis for retention: the span box lies entirely
outside the (unshrunk) table box. -/
def outside_table (b : SpanBox) (t : TableBox) : Prop :=
  b.x + b.width < t.x ∨ t.x + t.width < b.x ∨
  b.y + b.height < t.y ∨ t.y + t.height < b.y

instance (b : SpanBox) (t : TableBox) : Decidable (outside_table b t) :=
  inferInstanceAs (Decidable (_ ∨ _ ∨ _ ∨ _))

/-! ## X-position to grid column

Embeds `_get_column_from_x` (`intelligent_pdf_reader.py`, lines 815-820),
used by `_create_default_row` to place free text. -/
/-- Python `int()` on a rational: truncation toward zero (Lean's `/` on ℤ
is Euclidean division, which agrees with truncation on non-negative
numerators; negative values are negated around it). -/
def qtrunc (q : ℚ) : ℤ :=
  if 0 ≤ q.num then q.num / (q.den : ℤ) else -((-q.num) / (q.den : ℤ))

/-- `_get_column_from_x`: `max(1, min(8, int(x_pos / col_width) + 1))`
with `col_width = page_width / 8`. -/
def get_column_from_x (x_pos page_width : ℚ) : ℤ :=
  max 1 (min 8 (qtrunc (x_pos / (page_width / 8)) + 1))

/-- C1 counterexample: for N = 6 cells and the `medium` tier, the
`intelligent_pdf_reader.py` planner falls into the one-column-per-item
branch, so the last span ends at column 6, not at column 8 as the claim
requires for every tier. -/
theorem c1_counterexample :
    (calculate_optimal_column_layout 6 Tier.medium).getLast?.map Prod.snd ≠
      some 8 := by decide

/-- C1 (amended): for every N in 1..8 and every tier, both planners return
exactly N spans that are well-formed, non-overlapping and strictly
increasing, with the first span starting at column 1.  The last span ends
at column 8, except that the `intelligent_pdf_reader.py` planner ends at
column N for the simple/medium tiers when N is 6 or 7 (one column per
item); the `pdf_like_writer.py` planner ends at column 8 for all N in
1..8. -/
theorem c1_grid_plan_coverage (n : ℕ) (t : Tier) (h1 : 1 ≤ n) (h2 : n ≤ 8) :
    planOK (calculate_optimal_column_layout n t) n
      (if t ≠ Tier.complex ∧ (n = 6 ∨ n = 7) then n else 8) ∧
    planOK (pdf_like_column_layout n) n 8 := by
  interval_cases n <;> cases t <;> decide

/-- Witness for C1 at N = 6, medium tier. -/
theorem c1_grid_plan_coverage_witness :
    planOK (calculate_optimal_column_layout 6 Tier.medium) 6 6 ∧
    planOK (pdf_like_column_layout 6) 6 8 := by
  have h := c1_grid_plan_coverage 6 Tier.medium (by decide) (by decide)
  simpa using h

/-- C2 counterexample: for a 6-cell row of a `complex`-tier table, the
plan computed by `intelligent_pdf_reader.py` is
[(1,1),(2,2),(3,4),(5,5),(6,7),(8,8)], not the claimed
[(1,1),(2,2),(3,4),(5,6),(7,7),(8,8)]. -/
theorem c2_counterexample :
    calculate_optimal_column_layout 6 Tier.complex ≠
      [(1, 1), (2, 2), (3, 4), (5, 6), (7, 7), (8, 8)] ∧
    calculate_optimal_column_layout 6 Tier.simple ≠
      [(1, 1), (2, 2), (3, 3), (4, 4), (5, 6), (7, 8)] := by decide

/-- C2 (amended): for a table row with exactly 6 non-empty cells the
tier-dependent planner of `intelligent_pdf_reader.py` returns
[(1,1),(2,2),(3,4),(5,5),(6,7),(8,8)] for the complex tier and one column
per item, [(1,1),...,(6,6)], for the simple and medium tiers; the claimed
simple/medium plan [(1,1),(2,2),(3,3),(4,4),(5,6),(7,8)] is what the
tier-independent planner of `pdf_like_writer.py` returns for 6 cells. -/
theorem c2_six_cell_plan :
    calculate_optimal_column_layout 6 Tier.complex =
      [(1, 1), (2, 2), (3, 4), (5, 5), (6, 7), (8, 8)] ∧
    calculate_optimal_column_layout 6 Tier.simple =
      [(1, 1), (2, 2), (3, 3), (4, 4), (5, 5), (6, 6)] ∧
    calculate_optimal_column_layout 6 Tier.medium =
      [(1, 1), (2, 2), (3, 3), (4, 4), (5, 5), (6, 6)] ∧
    pdf_like_column_layout 6 =
      [(1, 1), (2, 2), (3, 3), (4, 4), (5, 6), (7, 8)] := by decide

/-- C3 (confirmed): the integer RGB color 0x336699 and the float triple
(0.2, 0.4, 0.6) — i.e. the binary64 doubles the literals 0.2, 0.4 and 0.6
denote — canonicalise to the same 8-hex-digit string "FF336699".  (The
multiplications 0.2*255, 0.4*255 and 0.6*255 round to exactly 51.0, 102.0
and 153.0 in binary64, although the exact rational products fall slightly
below those integers.) -/
theorem c3_color_roundtrip :
    convert_color_to_hex (PyColor.int 0x336699) = some "FF336699" ∧
    convert_color_to_hex
      (PyColor.floats (pyFloatLit 2 10) (pyFloatLit 4 10) (pyFloatLit 6 10)) =
      some "FF336699" := by decide

/-- C5 counterexample: a shape-fill observation given as the hex string
"#ABC" (unusual length) is passed through `_convert_color_to_hex`
unchanged, its unparseable brightness defaults to 128 which counts as
"suitable", and it ends up verbatim in `header_bg` — which is then not an
8-hex-digit `AARRGGBB` string. -/
theorem c5_counterexample :
    (resolveTheme [] [PyColor.str "#ABC"] []).header_bg = some "#ABC" ∧
    ¬ validColor "#ABC" := by decide

/-- C6 counterexample: the input contains one shape-fill observation — the
integer color 0 (black) — yet `header_bg` stays absent, because
`_extract_colors` guards each fill with `if fill_color:` and the Python
integer 0 is falsy, so the observation never reaches the tally; the claim
instead requires the fallback gray `FFE5E5E5` (one observation exists and
black's brightness 0 is not in [40, 180]). -/
theorem c6_counterexample :
    [PyColor.int 0].length = 1 ∧
    (resolveTheme [] [PyColor.int 0] []).header_bg = none := by decide

/-- C9 counterexample: two permutations of the same fill-observation
multiset (two distinct colors of equal frequency, both suitable for
headers) resolve to different themes: the frequency sort is stable, so the
tie breaks by first-seen order, and `header_bg` follows the input order. -/
theorem c9_counterexample :
    List.Perm [PyColor.int 0x646464, PyColor.int 0x656565]
      [PyColor.int 0x656565, PyColor.int 0x646464] ∧
    resolveTheme [] [PyColor.int 0x646464, PyColor.int 0x656565] [] ≠
      resolveTheme [] [PyColor.int 0x656565, PyColor.int 0x646464] [] := by
  decide

theorem mem_dedupFirst (x : String) :
    ∀ l : List String, x ∈ dedupFirst l ↔ x ∈ l := by
  intro l
  induction l with
  | nil => simp [dedupFirst]
  | cons y ys ih =>
    simp only [dedupFirst, List.mem_cons, List.mem_filter, ih]
    by_cases hxy : x = y
    · simp [hxy]
    · simp [hxy]

theorem dedupFirst_append_singleton (x : String) :
    ∀ ks : List String, dedupFirst (ks ++ [x]) =
      if x ∈ ks then dedupFirst ks else dedupFirst ks ++ [x] := by
  intro ks
  induction ks with
  | nil => simp [dedupFirst]
  | cons y ys ih =>
    have base : dedupFirst ((y :: ys) ++ [x]) =
        y :: (dedupFirst (ys ++ [x])).filter (fun z => z ≠ y) := rfl
    rw [base, ih]
    by_cases hx : x ∈ ys
    · rw [if_pos hx, if_pos (List.mem_cons_of_mem y hx)]
      rfl
    · rw [if_neg hx, List.filter_append]
      by_cases hxy : x = y
      · subst hxy
        rw [if_pos (List.mem_cons_self x ys)]
        simp [dedupFirst]
      · rw [if_neg (by simp [hxy, hx] : ¬ x ∈ y :: ys)]
        simp [dedupFirst, hxy]

/-- A tally is exactly: the keys in first-seen order, each paired with its
total occurrence count. -/
theorem tally_eq (ks : List String) :
    tally ks = (dedupFirst ks).map (fun k => (k, ks.count k)) := by
  induction ks using List.reverseRecOn with
  | nil => rfl
  | append_singleton ks x ih =>
    have hfold : tally (ks ++ [x]) = insertOrIncr (tally ks) x := by
      simp [tally, List.foldl_append]
    rw [hfold, ih, dedupFirst_append_singleton]
    by_cases hx : x ∈ ks
    · have hany : ((dedupFirst ks).map (fun k => (k, ks.count k))).any
          (fun p => p.1 = x) = true := by
        simp only [List.any_eq_true, decide_eq_true_eq]
        exact ⟨(x, ks.count x),
          List.mem_map_of_mem _ ((mem_dedupFirst x ks).mpr hx), rfl⟩
      simp only [insertOrIncr, hany, if_true, hx, if_true, List.map_map]
      apply List.map_congr_left
      intro k _
      by_cases hkx : k = x
      · subst hkx
        simp [List.count_append]
      · simp [Function.comp, hkx, List.count_append]
    · have hany : ((dedupFirst ks).map (fun k => (k, ks.count k))).any
          (fun p => p.1 = x) = false := by
        simp only [List.any_eq_false, decide_eq_true_eq]
        intro p hp
        obtain ⟨k, hk, rfl⟩ := List.mem_map.mp hp
        intro hkx
        exact hx (hkx ▸ (mem_dedupFirst k ks).mp hk)
      simp only [insertOrIncr, hany, Bool.false_eq_true, if_false, hx,
        if_false, List.map_append]
      congr 1
      · apply List.map_congr_left
        intro k hk
        have hkks : k ∈ ks := (mem_dedupFirst k ks).mp hk
        have hkx : ¬ k = x := fun h => hx (h ▸ hkks)
        simp [List.count_append, hkx]
      · simp [List.count_append, List.count_eq_zero.mpr hx]

theorem buildFreq_eq_tally (l : List PyColor) :
    buildFreq l = tally (obsKeys l) := by
  have fusion : ∀ (l : List PyColor) (acc : List (String × ℕ)),
      l.foldl (fun acc c =>
        match obsKey c with
        | some k => insertOrIncr acc k
        | none => acc) acc = (l.filterMap obsKey).foldl insertOrIncr acc := by
    intro l
    induction l with
    | nil => intro acc; rfl
    | cons c rest ih =>
      intro acc
      cases h : obsKey c with
      | some k => simp [List.filterMap_cons, h, ih]
      | none => simp [List.filterMap_cons, h, ih]
  exact fusion l []

theorem buildFreq_eq_nil_iff (l : List PyColor) :
    buildFreq l = [] ↔ ∀ c ∈ l, obsKey c = none := by
  rw [buildFreq_eq_tally, tally_eq, List.map_eq_nil_iff]
  have hdeq : dedupFirst (obsKeys l) = [] ↔ obsKeys l = [] := by
    cases h : obsKeys l with
    | nil => simp [h, dedupFirst]
    | cons a t => simp [dedupFirst]
  rw [hdeq]
  exact List.filterMap_eq_nil_iff

theorem insertDesc_perm (x : String × ℕ) :
    ∀ l, List.Perm (insertDesc x l) (x :: l)
  | [] => List.Perm.refl _
  | y :: ys => by
    simp only [insertDesc]
    by_cases h : x.2 < y.2
    · rw [if_pos h]
      exact ((insertDesc_perm x ys).cons y).trans (List.Perm.swap x y ys)
    · rw [if_neg h]

theorem sortByCountDesc_perm : ∀ l, List.Perm (sortByCountDesc l) l
  | [] => List.Perm.refl _
  | x :: xs => by
    simp only [sortByCountDesc, List.foldr_cons]
    exact (insertDesc_perm x _).trans
      (List.Perm.cons x (sortByCountDesc_perm xs))

theorem insertDesc_sorted (x : String × ℕ) :
    ∀ l, List.Pairwise (fun a b : String × ℕ => b.2 ≤ a.2) l →
      List.Pairwise (fun a b : String × ℕ => b.2 ≤ a.2) (insertDesc x l)
  | [], _ => List.pairwise_singleton _ _
  | y :: ys, h => by
    simp only [insertDesc]
    rcases List.pairwise_cons.mp h with ⟨hy, hys⟩
    by_cases hxy : x.2 < y.2
    · rw [if_pos hxy]
      refine List.pairwise_cons.mpr ⟨?_, insertDesc_sorted x ys hys⟩
      intro z hz
      have : z ∈ x :: ys := (insertDesc_perm x ys).mem_iff.mp hz
      rcases List.mem_cons.mp this with rfl | hz'
      · exact le_of_lt hxy
      · exact hy z hz'
    · rw [if_neg hxy]
      refine List.pairwise_cons.mpr ⟨?_, h⟩
      intro z hz
      rcases List.mem_cons.mp hz with rfl | hz'
      · exact not_lt.mp hxy
      · exact le_trans (hy z hz') (not_lt.mp hxy)

theorem sortByCountDesc_sorted :
    ∀ l, List.Pairwise (fun a b : String × ℕ => b.2 ≤ a.2) (sortByCountDesc l)
  | [] => List.Pairwise.nil
  | x :: xs => by
    simp only [sortByCountDesc, List.foldr_cons]
    exact insertDesc_sorted x _ (sortByCountDesc_sorted xs)

/-- In a descending-by-count list, the first element found satisfying a
predicate has a count at least that of every satisfying element. -/
theorem find?_max_count (p : String × ℕ → Bool) (x : String × ℕ) :
    ∀ l, List.Pairwise (fun a b : String × ℕ => b.2 ≤ a.2) l →
      l.find? p = some x → ∀ y ∈ l, p y = true → y.2 ≤ x.2 := by
  intro l
  induction l with
  | nil => intro _ h; simp at h
  | cons a t ih =>
    intro hs hf y hy hpy
    rcases List.pairwise_cons.mp hs with ⟨ha, ht⟩
    cases hpa : p a with
    | true =>
      rw [List.find?_cons_of_pos _ hpa] at hf
      injection hf with hf
      subst hf
      rcases List.mem_cons.mp hy with rfl | hy'
      · exact le_refl _
      · exact ha y hy'
    | false =>
      rw [List.find?_cons_of_neg _ (by simp [hpa])] at hf
      rcases List.mem_cons.mp hy with rfl | hy'
      · rw [hpy] at hpa; cases hpa
      · exact ih ht hf y hy' hpy

/-- C9 (amended): the resolver is a function of the per-channel frequency
tallies in first-seen order.  Two observation triples whose surviving
canonical key sequences are permutations of each other AND list first
occurrences in the same order resolve to the same theme.  (General
permutations may differ — see the counterexample — because frequency ties
break by first-seen order.) -/
theorem c9_theme_determinism (t1 f1 s1 t2 f2 s2 : List PyColor)
    (htp : List.Perm (obsKeys t1) (obsKeys t2))
    (htd : dedupFirst (obsKeys t1) = dedupFirst (obsKeys t2))
    (hfp : List.Perm (obsKeys f1) (obsKeys f2))
    (hfd : dedupFirst (obsKeys f1) = dedupFirst (obsKeys f2))
    (hsp : List.Perm (obsKeys s1) (obsKeys s2))
    (hsd : dedupFirst (obsKeys s1) = dedupFirst (obsKeys s2)) :
    resolveTheme t1 f1 s1 = resolveTheme t2 f2 s2 := by
  have key : ∀ a b : List PyColor, List.Perm (obsKeys a) (obsKeys b) →
      dedupFirst (obsKeys a) = dedupFirst (obsKeys b) →
      buildFreq a = buildFreq b := by
    intro a b hp hd
    rw [buildFreq_eq_tally, buildFreq_eq_tally, tally_eq, tally_eq, hd]
    apply List.map_congr_left
    intro k _
    rw [hp.count_eq]
  unfold resolveTheme
  rw [key t1 t2 htp htd, key f1 f2 hfp hfd, key s1 s2 hsp hsd]

/-- Witness for C9: reordering a later duplicate (first occurrences and
frequencies unchanged) leaves the theme unchanged. -/
theorem c9_theme_determinism_witness :
    resolveTheme [] [PyColor.int 100, PyColor.int 101, PyColor.int 100] [] =
      resolveTheme [] [PyColor.int 100, PyColor.int 100, PyColor.int 101] [] :=
  c9_theme_determinism _ _ _ _ _ _ (by decide) (by decide) (by decide)
    (by decide) (by decide) (by decide)

theorem headerBgOf_eq_none_iff (bf : List (String × ℕ)) :
    headerBgOf bf = none ↔ bf = [] := by
  unfold headerBgOf
  by_cases h : bf.isEmpty
  · simp [h, List.isEmpty_iff.mp h]
  · rw [if_neg h]
    have hbf : ¬ bf = [] := fun hh => h (by simp [hh])
    cases hf : (sortByCountDesc bf).find?
        (fun p => is_suitable_header_color p.1) with
    | some p => simp [hf, hbf]
    | none => simp [hf, hbf]

/-- C6 (amended): `header_bg` is absent exactly when no shape-fill
observation survives conversion (each is falsy — such as the integer color
0, black — or has an unrecognised format); the claimed condition "at least
one shape-fill observation" is too weak.  When the surviving tally is
non-empty, `header_bg` is populated with a maximal-frequency tallied fill
color that is suitable for headers (brightness in [40, 180]), or with the
fixed light gray `FFE5E5E5` when no tallied fill color is suitable. -/
theorem c6_header_bg_characterization (tObs fObs sObs : List PyColor) :
    ((resolveTheme tObs fObs sObs).header_bg = none ↔
      ∀ c ∈ fObs, obsKey c = none) ∧
    (buildFreq fObs ≠ [] →
      ∃ s, (resolveTheme tObs fObs sObs).header_bg = some s ∧
        ((∃ q ∈ buildFreq fObs, q.1 = s ∧ is_suitable_header_color s = true ∧
            ∀ r ∈ buildFreq fObs,
              is_suitable_header_color r.1 = true → r.2 ≤ q.2) ∨
         (s = "FFE5E5E5" ∧
            ∀ r ∈ buildFreq fObs, is_suitable_header_color r.1 = false))) := by
  have hbg : (resolveTheme tObs fObs sObs).header_bg =
      headerBgOf (buildFreq fObs) := rfl
  constructor
  · rw [hbg, headerBgOf_eq_none_iff]
    exact buildFreq_eq_nil_iff fObs
  · intro hne
    rw [hbg]
    unfold headerBgOf
    rw [if_neg (fun hh => hne (List.isEmpty_iff.mp hh))]
    cases hf : (sortByCountDesc (buildFreq fObs)).find?
        (fun p => is_suitable_header_color p.1) with
    | some p =>
      refine ⟨p.1, rfl, Or.inl ⟨p, ?_, rfl, ?_, ?_⟩⟩
      · exact (sortByCountDesc_perm _).mem_iff.mp (List.mem_of_find?_eq_some hf)
      · have hps := List.find?_some hf
        simpa using hps
      · intro r hr hsr
        exact find?_max_count _ p _ (sortByCountDesc_sorted _) hf r
          ((sortByCountDesc_perm _).mem_iff.mpr hr) hsr
    | none =>
      refine ⟨"FFE5E5E5", rfl, Or.inr ⟨rfl, ?_⟩⟩
      intro r hr
      have := List.find?_eq_none.mp hf r
        ((sortByCountDesc_perm _).mem_iff.mpr hr)
      exact Bool.not_eq_true _ ▸ this

/-- Witness for C6 at one surviving mid-gray fill observation. -/
theorem c6_header_bg_characterization_witness :
    ∃ s, (resolveTheme [] [PyColor.int 0x646464] []).header_bg = some s ∧
      ((∃ q ∈ buildFreq [PyColor.int 0x646464], q.1 = s ∧
          is_suitable_header_color s = true ∧
          ∀ r ∈ buildFreq [PyColor.int 0x646464],
            is_suitable_header_color r.1 = true → r.2 ≤ q.2) ∨
       (s = "FFE5E5E5" ∧
          ∀ r ∈ buildFreq [PyColor.int 0x646464],
            is_suitable_header_color r.1 = false)) :=
  (c6_header_bg_characterization [] [PyColor.int 0x646464] []).2 (by decide)

theorem posLog2_zero : ∀ fuel, posLog2 fuel 0 = 0
  | 0 => rfl
  | _ + 1 => by simp [posLog2]

theorem posLog2_le : ∀ fuel n, 1 ≤ n → n < 2 ^ fuel →
    2 ^ posLog2 fuel n ≤ n := by
  intro fuel
  induction fuel with
  | zero => intro n h1 h2; simp at h2; omega
  | succ f ih =>
    intro n h1 h2
    by_cases h : 2 ≤ n
    · have hd1 : 1 ≤ n / 2 := Nat.one_le_div_iff (by norm_num) |>.mpr h
      have hd2 : n / 2 < 2 ^ f := by
        rw [Nat.div_lt_iff_lt_mul (by norm_num)]
        calc n < 2 ^ (f + 1) := h2
        _ = 2 ^ f * 2 := by ring
      have := ih (n / 2) hd1 hd2
      simp only [posLog2, h, if_true]
      calc 2 ^ (posLog2 f (n / 2) + 1) = 2 ^ posLog2 f (n / 2) * 2 := by ring
      _ ≤ n / 2 * 2 := by omega
      _ ≤ n := by omega
    · simp only [posLog2, h, if_false]
      omega

/-- Truncation toward zero of a non-negative double below 256 stays in
[0, 255]. -/
theorem dblTrunc_bounds (d : Dbl) (hm : 0 ≤ d.m) (hv : dblVal d < 256) :
    0 ≤ dblTrunc d ∧ dblTrunc d ≤ 255 := by
  unfold dblTrunc
  by_cases he : 0 ≤ d.e
  · rw [if_pos he]
    constructor
    · exact mul_nonneg hm (by positivity)
    · have hq : ((d.m * ((2 ^ d.e.toNat : ℕ) : ℤ) : ℤ) : ℚ) = dblVal d := by
        unfold dblVal
        push_cast
        rw [← zpow_natCast (2 : ℚ) d.e.toNat, Int.toNat_of_nonneg he]
      have hlt : ((d.m * ((2 ^ d.e.toNat : ℕ) : ℤ) : ℤ) : ℚ) < 256 := by
        rw [hq]; exact hv
      have : (d.m * ((2 ^ d.e.toNat : ℕ) : ℤ) : ℤ) < 256 := by exact_mod_cast hlt
      omega
  · rw [if_neg he, if_pos hm]
    constructor
    · positivity
    · obtain ⟨E, hE⟩ : ∃ E : ℕ, d.e = -(E : ℤ) := ⟨(-d.e).toNat, by omega⟩
      have hEtn : (-d.e).toNat = E := by omega
      rw [hEtn]
      have h2p : (0 : ℚ) < 2 ^ (E : ℤ) := by positivity
      have hv' : (d.m : ℚ) * ((2 : ℚ) ^ (E : ℤ))⁻¹ < 256 := by
        have hvv := hv
        unfold dblVal at hvv
        rw [hE, zpow_neg] at hvv
        exact hvv
      have hmlt : (d.m : ℚ) < 256 * 2 ^ (E : ℤ) := by
        rw [inv_eq_one_div, mul_one_div, div_lt_iff₀ h2p] at hv'
        exact hv'
      have hmlt' : d.m < 256 * 2 ^ E := by
        have h256 : ((256 * 2 ^ E : ℤ) : ℚ) = 256 * 2 ^ (E : ℤ) := by
          push_cast
          rw [← zpow_natCast (2 : ℚ) E]
        exact_mod_cast h256 ▸ hmlt
      have hnat : d.m.toNat < 256 * 2 ^ E := by
        have hq1 : (d.m.toNat : ℤ) < ((256 * 2 ^ E : ℕ) : ℤ) := by
          rw [Int.toNat_of_nonneg hm]
          push_cast
          exact hmlt'
        exact_mod_cast hq1
      have hdiv : d.m.toNat / 2 ^ E < 256 :=
        Nat.div_lt_iff_lt_mul (by positivity) |>.mpr (by omega)
      omega

/-- `int(c * 255)` of a double in [0, 1] is a byte. -/
theorem pyByte_bounds (d : Dbl) (h53 : d.m.natAbs < 2 ^ 53)
    (h0 : 0 ≤ dblVal d) (h1 : dblVal d ≤ 1) :
    0 ≤ pyByte d ∧ pyByte d ≤ 255 := by
  have h2e : (0 : ℚ) < (2 : ℚ) ^ d.e := by positivity
  have hm : 0 ≤ d.m := by
    by_contra hneg
    push_neg at hneg
    have hmq : (d.m : ℚ) < 0 := by exact_mod_cast hneg
    have : dblVal d < 0 := mul_neg_of_neg_of_pos hmq h2e
    linarith
  unfold pyByte dblMul255 round53
  set M : ℤ := d.m * 255 with hMdef
  have hMnn : 0 ≤ M := mul_nonneg hm (by norm_num)
  set n : ℕ := M.natAbs with hndef
  have hnM : (n : ℤ) = M := Int.natAbs_of_nonneg hMnn
  have hcast : (n : ℚ) = (d.m : ℚ) * 255 := by
    have hq1 : ((n : ℤ) : ℚ) = ((M : ℤ) : ℚ) := by exact_mod_cast hnM
    rw [hMdef] at hq1
    push_cast at hq1
    exact hq1
  have hval : (n : ℚ) * (2 : ℚ) ^ d.e ≤ 255 := by
    rw [hcast]
    have hdd := h1
    unfold dblVal at hdd
    nlinarith
  simp only
  by_cases hL : posLog2 4000 n ≤ 52
  · rw [if_pos hL]
    apply dblTrunc_bounds ⟨M, d.e⟩ hMnn
    show (M : ℚ) * 2 ^ d.e < 256
    have hMn : ((M : ℤ) : ℚ) = (n : ℚ) := by exact_mod_cast hnM.symm
    rw [hMn]
    linarith
  · rw [if_neg hL]
    set L : ℕ := posLog2 4000 n with hLdef
    set sh : ℕ := L - 52 with hshdef
    have hn1 : 1 ≤ n := by
      by_contra hc
      push_neg at hc
      have hn0 : n = 0 := by omega
      rw [hn0, posLog2_zero] at hLdef
      omega
    have hnlt : n < 2 ^ 4000 := by
      have hmul : n = d.m.natAbs * 255 := by
        rw [hndef, hMdef, Int.natAbs_mul]
        norm_num
      calc n = d.m.natAbs * 255 := hmul
      _ < 2 ^ 53 * 255 := Nat.mul_lt_mul_right (by norm_num) |>.mpr h53
      _ < 2 ^ 61 := by norm_num
      _ ≤ 2 ^ 4000 := Nat.pow_le_pow_right (by norm_num) (by norm_num)
    have h2L : 2 ^ L ≤ n := posLog2_le 4000 n hn1 hnlt
    have hLe : (L : ℤ) + d.e ≤ 7 := by
      by_contra hc
      push_neg at hc
      have h8 : (8 : ℤ) ≤ (L : ℤ) + d.e := by omega
      have hpow : (2 : ℚ) ^ ((8 : ℤ)) ≤ (2 : ℚ) ^ ((L : ℤ) + d.e) :=
        zpow_le_zpow_right₀ (by norm_num) h8
      have hLn : ((2 : ℚ) ^ (L : ℤ)) ≤ (n : ℚ) := by
        rw [zpow_natCast]
        exact_mod_cast h2L
      have hle255 : (2 : ℚ) ^ ((L : ℤ) + d.e) ≤ 255 := by
        rw [zpow_add₀ (by norm_num : (2:ℚ) ≠ 0)]
        calc (2 : ℚ) ^ (L : ℤ) * 2 ^ d.e ≤ (n : ℚ) * 2 ^ d.e :=
              mul_le_mul_of_nonneg_right hLn (le_of_lt h2e)
        _ ≤ 255 := hval
      have hfin : (2 : ℚ) ^ (8 : ℤ) ≤ 255 := le_trans hpow hle255
      rw [show ((8 : ℤ)) = ((8 : ℕ) : ℤ) from rfl, zpow_natCast] at hfin
      norm_num at hfin
    set q : ℕ := n / 2 ^ sh with hqdef
    set r : ℕ := n % 2 ^ sh with hrdef
    set half : ℕ := 2 ^ (sh - 1) with hhalfdef
    set qr : ℕ := if r < half then q
                  else if half < r then q + 1
                  else if q % 2 = 0 then q else q + 1 with hqrdef
    have hqrle : qr ≤ q + 1 := by
      rw [hqrdef]
      split
      · omega
      · split
        · omega
        · split <;> omega
    have hMpos : ¬ M < 0 := by omega
    rw [if_neg hMpos]
    apply dblTrunc_bounds _ (Int.natCast_nonneg qr)
    show ((qr : ℤ) : ℚ) * 2 ^ (d.e + (sh : ℤ)) < 256
    have hqn : (q : ℚ) * 2 ^ ((sh : ℕ) : ℤ) ≤ (n : ℚ) := by
      rw [zpow_natCast]
      have hqq : q * 2 ^ sh ≤ n := Nat.div_mul_le_self n (2 ^ sh)
      exact_mod_cast hqq
    have hstep : ((qr : ℚ)) * 2 ^ (d.e + (sh : ℤ)) ≤
        (n : ℚ) * 2 ^ d.e + 2 ^ (d.e + (sh : ℤ)) := by
      have hqrq : (qr : ℚ) ≤ (q : ℚ) + 1 := by exact_mod_cast hqrle
      have h2es : (0 : ℚ) < 2 ^ (d.e + (sh : ℤ)) := by positivity
      have hkey : (q : ℚ) * 2 ^ (d.e + (sh : ℤ)) ≤ (n : ℚ) * 2 ^ d.e := by
        rw [zpow_add₀ (by norm_num : (2:ℚ) ≠ 0)]
        calc (q : ℚ) * (2 ^ d.e * 2 ^ ((sh : ℕ) : ℤ))
            = ((q : ℚ) * 2 ^ ((sh : ℕ) : ℤ)) * 2 ^ d.e := by ring
        _ ≤ (n : ℚ) * 2 ^ d.e :=
            mul_le_mul_of_nonneg_right hqn (le_of_lt h2e)
      calc (qr : ℚ) * 2 ^ (d.e + (sh : ℤ))
          ≤ ((q : ℚ) + 1) * 2 ^ (d.e + (sh : ℤ)) :=
            mul_le_mul_of_nonneg_right hqrq (le_of_lt h2es)
      _ = (q : ℚ) * 2 ^ (d.e + (sh : ℤ)) + 2 ^ (d.e + (sh : ℤ)) := by ring
      _ ≤ (n : ℚ) * 2 ^ d.e + 2 ^ (d.e + (sh : ℤ)) := by linarith
    have hsh_e : d.e + (sh : ℤ) ≤ -45 := by
      have hL53 : 52 < L := by omega
      have hshL : (sh : ℤ) = (L : ℤ) - 52 := by omega
      omega
    have htiny : (2 : ℚ) ^ (d.e + (sh : ℤ)) ≤ 2 ^ (-45 : ℤ) :=
      zpow_le_zpow_right₀ (by norm_num) hsh_e
    have htiny2 : (2 : ℚ) ^ (-45 : ℤ) < 1 := by
      rw [zpow_neg, inv_lt_one_iff₀]
      right
      have h45 : (1 : ℚ) < 2 ^ (45 : ℤ) := by
        rw [show ((45 : ℤ)) = ((45 : ℕ) : ℤ) from rfl, zpow_natCast]
        norm_num
      linarith
    push_cast
    calc (qr : ℚ) * 2 ^ (d.e + (sh : ℤ))
        ≤ (n : ℚ) * 2 ^ d.e + 2 ^ (d.e + (sh : ℤ)) := hstep
    _ < 256 := by linarith

theorem hexDigitChar_isSome (n : ℕ) (h : n < 16) :
    (hexDigVal (hexDigitChar n)).isSome = true := by
  interval_cases n <;> decide

theorem hexAux_spec : ∀ fuel w n, n < 16 ^ w → 1 ≤ w → w ≤ fuel →
    (hexAux fuel n).length ≤ w ∧ ∀ c ∈ hexAux fuel n, (hexDigVal c).isSome := by
  intro fuel
  induction fuel with
  | zero => intro w n _ h1 h2; omega
  | succ f ih =>
    intro w n hn h1 hf
    by_cases h16 : n < 16
    · simp only [hexAux, h16, if_true]
      refine ⟨by simpa using h1, ?_⟩
      intro c hc
      rcases List.mem_singleton.mp hc with rfl
      exact hexDigitChar_isSome n h16
    · have hw2 : 2 ≤ w := by
        by_contra hw
        push_neg at hw
        interval_cases w
        simp at hn; omega
      have hdiv : n / 16 < 16 ^ (w - 1) := by
        rw [Nat.div_lt_iff_lt_mul (by norm_num)]
        calc n < 16 ^ w := hn
        _ = 16 ^ (w - 1) * 16 := by
            rw [← pow_succ]
            congr 1
            omega
      have := ih (w - 1) (n / 16) hdiv (by omega) (by omega)
      simp only [hexAux, h16, if_false]
      constructor
      · rw [List.length_append, List.length_singleton]
        omega
      · intro c hc
        rcases List.mem_append.mp hc with hc' | hc'
        · exact this.2 c hc'
        · rcases List.mem_singleton.mp hc' with rfl
          exact hexDigitChar_isSome _ (Nat.mod_lt n (by norm_num))

theorem padLeft_length (w : ℕ) (l : List Char) (h : l.length ≤ w) :
    (padLeft w l).length = w := by
  simp [padLeft]
  omega

theorem padLeft_mem (w : ℕ) (l : List Char) (c : Char) (h : c ∈ padLeft w l) :
    c = '0' ∨ c ∈ l := by
  rcases List.mem_append.mp h with h' | h'
  · exact Or.inl (List.eq_of_mem_replicate h')
  · exact Or.inr h'

theorem pyHexPad_spec (w : ℕ) (k : ℤ) (h0 : 0 ≤ k) (hk : k.toNat < 16 ^ w)
    (hw : 1 ≤ w) (hw32 : w ≤ 32) :
    (pyHexPad w k).length = w ∧ ∀ c ∈ pyHexPad w k, (hexDigVal c).isSome := by
  have hspec := hexAux_spec 32 w k.toNat hk hw hw32
  simp only [pyHexPad, h0, if_true]
  constructor
  · exact padLeft_length w _ hspec.1
  · intro c hc
    rcases padLeft_mem w _ c hc with rfl | hc'
    · decide
    · exact hspec.2 c hc'

theorem validColor_mk (l : List Char) (hlen : l.length = 6)
    (hhex : ∀ c ∈ l, (hexDigVal c).isSome) :
    validColor (String.mk ('F' :: 'F' :: l)) := by
  refine ⟨?_, rfl, ?_⟩
  · show (String.mk ('F' :: 'F' :: l)).length = 8
    simp [String.length, hlen]
  · intro c hc
    rcases List.mem_cons.mp hc with rfl | hc
    · decide
    · rcases List.mem_cons.mp hc with rfl | hc
      · decide
      · exact hhex c hc

/-- Canonicalising a well-formed raw color always yields a valid
8-hex-digit `AARRGGBB` string with alpha `FF`. -/
theorem convert_wf_valid (c : PyColor) (hwf : wellformedColor c) :
    ∀ s, convert_color_to_hex c = some s → validColor s := by
  intro s hc
  cases c with
  | int n =>
    obtain ⟨h0, h1⟩ := hwf
    simp only [convert_color_to_hex, Option.some_inj] at hc
    subst hc
    have h166 : (16 : ℕ) ^ 6 = 16777216 := by norm_num
    have hk : n.toNat < 16 ^ 6 := by omega
    have hspec := pyHexPad_spec 6 n h0 hk (by norm_num) (by norm_num)
    exact validColor_mk _ hspec.1 hspec.2
  | floats r g b =>
    obtain ⟨hr, hg, hb⟩ := hwf
    have hrB := pyByte_bounds r hr.1 hr.2.1 hr.2.2
    have hgB := pyByte_bounds g hg.1 hg.2.1 hg.2.2
    have hbB := pyByte_bounds b hb.1 hb.2.1 hb.2.2
    simp only [convert_color_to_hex, Option.some_inj] at hc
    subst hc
    have h162 : (16 : ℕ) ^ 2 = 256 := by norm_num
    have hrS := pyHexPad_spec 2 (pyByte r) hrB.1 (by omega) (by norm_num)
      (by norm_num)
    have hgS := pyHexPad_spec 2 (pyByte g) hgB.1 (by omega) (by norm_num)
      (by norm_num)
    have hbS := pyHexPad_spec 2 (pyByte b) hbB.1 (by omega) (by norm_num)
      (by norm_num)
    apply validColor_mk
    · simp only [List.length_append, hrS.1, hgS.1, hbS.1]
    · intro ch hch
      rcases List.mem_append.mp hch with hch' | hch'
      · rcases List.mem_append.mp hch' with hch'' | hch''
        · exact hrS.2 ch hch''
        · exact hgS.2 ch hch''
      · exact hbS.2 ch hch'
  | str s' =>
    exact hwf.elim

theorem insertOrIncr_fst (acc : List (String × ℕ)) (k : String) :
    ∀ p ∈ insertOrIncr acc k, (∃ q ∈ acc, p.1 = q.1) ∨ p.1 = k := by
  intro p hp
  unfold insertOrIncr at hp
  split at hp
  · obtain ⟨q, hq, rfl⟩ := List.mem_map.mp hp
    left
    refine ⟨q, hq, ?_⟩
    split <;> rfl
  · rcases List.mem_append.mp hp with h | h
    · exact Or.inl ⟨p, h, rfl⟩
    · rcases List.mem_singleton.mp h with rfl
      exact Or.inr rfl

/-- Every key in the tally built from well-formed observations is a valid
`AARRGGBB` string. -/
theorem buildFreq_keys_valid (obs : List PyColor)
    (hwf : ∀ c ∈ obs, wellformedColor c) :
    ∀ p ∈ buildFreq obs, validColor p.1 := by
  have gen : ∀ (l : List PyColor) (acc : List (String × ℕ)),
      (∀ c ∈ l, wellformedColor c) → (∀ p ∈ acc, validColor p.1) →
      ∀ p ∈ l.foldl (fun acc c =>
        match obsKey c with
        | some k => insertOrIncr acc k
        | none => acc) acc, validColor p.1 := by
    intro l
    induction l with
    | nil =>
      intro acc _ hacc
      simpa using hacc
    | cons c rest ih =>
      intro acc hl hacc
      simp only [List.foldl_cons]
      cases hk : obsKey c with
      | none =>
        simp only [hk]
        exact ih acc (fun c' hc' => hl c' (List.mem_cons_of_mem _ hc')) hacc
      | some k =>
        simp only [hk]
        apply ih _ (fun c' hc' => hl c' (List.mem_cons_of_mem _ hc'))
        intro p hp
        rcases insertOrIncr_fst acc k p hp with ⟨q, hq, hpq⟩ | hpk
        · rw [hpq]; exact hacc q hq
        · rw [hpk]
          have hconv : convert_color_to_hex c = some k := by
            unfold obsKey at hk
            split at hk
            · exact hk
            · cases hk
          exact convert_wf_valid c (hl c (List.mem_cons_self c rest)) k hconv
  exact gen obs [] hwf (by simp)

theorem foldl_pick_mem (f : String → String → String)
    (hf : ∀ a b, f a b = a ∨ f a b = b) :
    ∀ (xs : List String) (x : String), xs.foldl f x ∈ x :: xs := by
  intro xs
  induction xs with
  | nil => intro x; simp
  | cons c rest ih =>
    intro x
    simp only [List.foldl_cons]
    have hmem := ih (f x c)
    rcases List.mem_cons.mp hmem with h1 | h1
    · rw [h1]
      rcases hf x c with h | h <;> rw [h]
      · exact List.mem_cons_self x _
      · exact List.mem_cons.mpr (Or.inr (List.mem_cons_self c rest))
    · exact List.mem_cons.mpr (Or.inr (List.mem_cons_of_mem c h1))

theorem maxBrightFirst_mem (x : String) (xs : List String) :
    maxBrightFirst x xs ∈ x :: xs := by
  unfold maxBrightFirst
  apply foldl_pick_mem
  intro a b
  show (if get_color_brightness a < get_color_brightness b then b else a) = a ∨
    (if get_color_brightness a < get_color_brightness b then b else a) = b
  split
  · exact Or.inr rfl
  · exact Or.inl rfl

theorem minBrightFirst_mem (x : String) (xs : List String) :
    minBrightFirst x xs ∈ x :: xs := by
  unfold minBrightFirst
  apply foldl_pick_mem
  intro a b
  show (if get_color_brightness b < get_color_brightness a then b else a) = a ∨
    (if get_color_brightness b < get_color_brightness a then b else a) = b
  split
  · exact Or.inr rfl
  · exact Or.inl rfl

theorem headerBgOf_valid (bf : List (String × ℕ))
    (hbf : ∀ p ∈ bf, validColor p.1) :
    ∀ s, headerBgOf bf = some s → validColor s := by
  intro s hsome
  unfold headerBgOf at hsome
  split at hsome
  · cases hsome
  · revert hsome
    cases hf : (sortByCountDesc bf).find?
        (fun p => is_suitable_header_color p.1) with
    | some p =>
      intro hsome
      rcases Option.some_inj.mp hsome with rfl
      exact hbf p ((sortByCountDesc_perm bf).mem_iff.mp
        (List.mem_of_find?_eq_some hf))
    | none =>
      intro hsome
      rcases Option.some_inj.mp hsome with rfl
      decide

theorem dataBgAlternateOf_valid (bf : List (String × ℕ))
    (hbf : ∀ p ∈ bf, validColor p.1) :
    ∀ s, dataBgAlternateOf bf = some s → validColor s := by
  intro s hsome
  unfold dataBgAlternateOf at hsome
  split at hsome
  · cases hsome
  · revert hsome
    cases hfl : (bf.map Prod.fst).filter
        (fun c => 240 < get_color_brightness c) with
    | nil => intro hsome; cases hsome
    | cons x xs =>
      intro hsome
      rcases Option.some_inj.mp hsome with rfl
      have hmem : maxBrightFirst x xs ∈ x :: xs := maxBrightFirst_mem x xs
      rw [← hfl] at hmem
      have hmap := (List.mem_filter.mp hmem).1
      obtain ⟨p, hp, hps⟩ := List.mem_map.mp hmap
      rw [← hps]
      exact hbf p hp

theorem dataTextOf_valid (tf : List (String × ℕ))
    (htf : ∀ p ∈ tf, validColor p.1) :
    ∀ s, dataTextOf tf = some s → validColor s := by
  intro s hsome
  unfold dataTextOf at hsome
  split at hsome
  · cases hsome
  · revert hsome
    cases hfl : (tf.map Prod.fst).filter
        (fun c => get_color_brightness c < 128) with
    | nil => intro hsome; cases hsome
    | cons x xs =>
      intro hsome
      rcases Option.some_inj.mp hsome with rfl
      have hmem : minBrightFirst x xs ∈ x :: xs := minBrightFirst_mem x xs
      rw [← hfl] at hmem
      have hmap := (List.mem_filter.mp hmem).1
      obtain ⟨p, hp, hps⟩ := List.mem_map.mp hmap
      rw [← hps]
      exact htf p hp

theorem headerTextOf_valid (hb : Option String) :
    ∀ s, headerTextOf hb = some s → validColor s := by
  intro s hsome
  cases hb with
  | none => cases hsome
  | some hb' =>
    simp only [headerTextOf, Option.some_inj] at hsome
    subst hsome
    split <;> decide

theorem create_border_valid (x : String) :
    ∀ s, create_border_color x = some s → validColor s := by
  intro s hsome
  unfold create_border_color at hsome
  revert hsome
  cases hp : parseRGB x with
  | none => intro hsome; cases hsome
  | some t =>
    obtain ⟨r, g, b⟩ := t
    intro hsome
    rcases Option.some_inj.mp hsome with rfl
    have h162 : (16 : ℕ) ^ 2 = 256 := by norm_num
    have hrS := pyHexPad_spec 2 ((min 255 (r + 40) : ℕ) : ℤ)
      (Int.natCast_nonneg _) (by simp; omega) (by norm_num) (by norm_num)
    have hgS := pyHexPad_spec 2 ((min 255 (g + 40) : ℕ) : ℤ)
      (Int.natCast_nonneg _) (by simp; omega) (by norm_num) (by norm_num)
    have hbS := pyHexPad_spec 2 ((min 255 (b + 40) : ℕ) : ℤ)
      (Int.natCast_nonneg _) (by simp; omega) (by norm_num) (by norm_num)
    apply validColor_mk
    · simp only [List.length_append, hrS.1, hgS.1, hbS.1]
    · intro ch hch
      rcases List.mem_append.mp hch with hch' | hch'
      · rcases List.mem_append.mp hch' with hch'' | hch''
        · exact hrS.2 ch hch''
        · exact hgS.2 ch hch''
      · exact hbS.2 ch hch'

theorem borderColorOf_valid (bdf : List (String × ℕ))
    (hbdf : ∀ p ∈ bdf, validColor p.1) (hbg : Option String)
    (hbgv : ∀ s, hbg = some s → validColor s) :
    ∀ s, borderColorOf bdf hbg = some s → validColor s := by
  intro s hsome
  unfold borderColorOf at hsome
  split at hsome
  · revert hsome
    cases hf : (sortByCountDesc bdf).find?
        (fun p => get_color_brightness p.1 < 100) with
    | some p =>
      intro hsome
      rcases Option.some_inj.mp hsome with rfl
      exact hbdf p ((sortByCountDesc_perm bdf).mem_iff.mp
        (List.mem_of_find?_eq_some hf))
    | none =>
      intro hsome
      rcases Option.some_inj.mp hsome with rfl
      decide
  · revert hsome
    cases hbg with
    | some hb =>
      intro hsome
      exact create_border_valid hb s hsome
    | none =>
      intro hsome
      rcases Option.some_inj.mp hsome with rfl
      decide

/-- C5 (amended): every populated field of the resolved theme is an
8-hex-digit `AARRGGBB` string with alpha `FF`, provided every observation
is well-formed (an RGB integer in [0, 0xFFFFFF] or a float triple of
doubles in [0, 1] — the formats the extraction layer produces).  The
restriction is necessary: a hex-string observation of unusual length
passes through canonicalisation verbatim (see the counterexample). -/
theorem c5_wire_format (tObs fObs sObs : List PyColor)
    (ht : ∀ c ∈ tObs, wellformedColor c)
    (hf : ∀ c ∈ fObs, wellformedColor c)
    (hs : ∀ c ∈ sObs, wellformedColor c) :
    (∀ s, (resolveTheme tObs fObs sObs).header_bg = some s → validColor s) ∧
    (∀ s, (resolveTheme tObs fObs sObs).header_text = some s → validColor s) ∧
    (∀ s, (resolveTheme tObs fObs sObs).data_bg_primary = some s →
      validColor s) ∧
    (∀ s, (resolveTheme tObs fObs sObs).data_bg_alternate = some s →
      validColor s) ∧
    (∀ s, (resolveTheme tObs fObs sObs).data_text = some s → validColor s) ∧
    (∀ s, (resolveTheme tObs fObs sObs).border_color = some s →
      validColor s) := by
  have hfv := buildFreq_keys_valid fObs hf
  have htv := buildFreq_keys_valid tObs ht
  have hsv := buildFreq_keys_valid sObs hs
  refine ⟨?_, ?_, ?_, ?_, ?_, ?_⟩
  · intro s h
    exact headerBgOf_valid _ hfv s h
  · intro s h
    exact headerTextOf_valid _ s h
  · intro s h
    cases h
  · intro s h
    exact dataBgAlternateOf_valid _ hfv s h
  · intro s h
    exact dataTextOf_valid _ htv s h
  · intro s h
    exact borderColorOf_valid _ hsv _ (headerBgOf_valid _ hfv) s h

/-- Witness for C5: with one well-formed mid-gray fill observation, the
derived border color (header background lightened by 40 per channel) is a
valid wire-format color. -/
theorem c5_wire_format_witness : validColor "FF8C8C8C" :=
  (c5_wire_format [] [PyColor.int 0x646464] [] (by decide) (by decide)
    (by decide)).2.2.2.2.2 "FF8C8C8C" (by decide)

/-- C4 counterexample: first row ["A", "", ""] (one non-empty cell, which
is non-numeric).  The claim's reading — more than half of the NON-EMPTY
cells are non-numeric — demands has_headers = true, but the code divides
by the total cell count (3), so 1 > 3/2 fails and has_headers is false. -/
theorem c4_counterexample :
    detect_headers [["A", "", ""], ["x", "y", "z"]] = false ∧
    detect_headers_spec [["A", "", ""], ["x", "y", "z"]] = true := by decide

/-- C4 (amended): for a table with at least 2 rows, has_headers is true
iff the number of non-empty NON-NUMERIC cells in the first row exceeds
half of the TOTAL number of cells in that row, empty cells counting
toward the denominator (a cell is numeric per `_is_numeric`: it parses as
a Python float after stripping commas, currency, percent and minus
signs). -/
theorem c4_detect_headers (table : List (List String))
    (h : 2 ≤ table.length) :
    detect_headers table = true ↔
      2 * (table.headI.countP
        (fun cell => cell ≠ "" && !(is_numeric cell))) >
        table.headI.length := by
  unfold detect_headers
  rw [if_neg (by omega)]
  exact decide_eq_true_iff

/-- Witness for C4 on a two-column header row. -/
theorem c4_detect_headers_witness :
    detect_headers [["Name", "Qty"], ["a", "1"]] = true ↔
      2 * (([["Name", "Qty"], ["a", "1"]] : List (List String)).headI.countP
        (fun cell => cell ≠ "" && !(is_numeric cell))) >
        ([["Name", "Qty"], ["a", "1"]] : List (List String)).headI.length :=
  c4_detect_headers [["Name", "Qty"], ["a", "1"]] (by decide)

/-- C7 (confirmed): a text span with a positive-size bounding box lying
entirely inside some table's box eroded by 5 points on every side is
removed by the overlap filter, and a span lying entirely outside every
table's unshrunk box is retained. -/
theorem c7_overlap_filter (blocks : List SpanBox) (tables : List TableBox)
    (b : SpanBox) (hb : b ∈ blocks) (hw : 0 < b.width) (hh : 0 < b.height) :
    ((∃ t ∈ tables, inside_eroded b t) →
      b ∉ filter_overlapping_text blocks tables) ∧
    ((∀ t ∈ tables, outside_table b t) →
      b ∈ filter_overlapping_text blocks tables) := by
  constructor
  · rintro ⟨t, ht, hin⟩ hmem
    have hpred := (List.mem_filter.mp hmem).2
    rw [Bool.not_eq_true', List.any_eq_false] at hpred
    have hno := hpred t ht
    rw [decide_eq_true_iff] at hno
    obtain ⟨h1, h2, h3, h4⟩ := hin
    exact hno ⟨by linarith, by linarith, by linarith, by linarith⟩
  · intro hout
    unfold filter_overlapping_text
    rw [List.mem_filter]
    refine ⟨hb, ?_⟩
    rw [Bool.not_eq_true', List.any_eq_false]
    intro t ht
    rw [decide_eq_true_iff]
    rintro ⟨h1, h2, h3, h4⟩
    rcases hout t ht with h | h | h | h <;> linarith

/-- Witness for C7: a 5x5 span at (10,10) inside a 30x30 table at the
origin is removed. -/
theorem c7_overlap_filter_witness :
    (⟨10, 10, 5, 5⟩ : SpanBox) ∉
      filter_overlapping_text [⟨10, 10, 5, 5⟩] [⟨0, 0, 30, 30⟩] :=
  (c7_overlap_filter [⟨10, 10, 5, 5⟩] [⟨0, 0, 30, 30⟩] ⟨10, 10, 5, 5⟩
    (List.mem_singleton.mpr rfl) (by norm_num) (by norm_num)).1
    ⟨⟨0, 0, 30, 30⟩, List.mem_singleton.mpr rfl,
      ⟨by norm_num, by norm_num, by norm_num, by norm_num⟩⟩

/-- C8 (confirmed): a span with font size 18, the bold flag set (bit 4 of
the font flags) and text "TOTAL DUE" classifies as `main_header`, even
though the section-header rule also matches it (bold with size over 10,
all-caps text containing the keyword TOTAL) — the first matching rule
wins. -/
theorem c8_classifier_priority :
    classify_text_block "TOTAL DUE" 18 16 = BlockType.main_header ∧
    main_header_rule 18 (decide (((16 : ℕ) &&& 16) ≠ 0)) = true ∧
    section_header_rule "TOTAL DUE" 18 (decide (((16 : ℕ) &&& 16) ≠ 0)) =
      true := by decide

/-- C10 (confirmed): for every x position (negative or beyond the page
edge included) and positive page width, the X-to-column mapping clamps
into [1, 8], so free text placed by position lands inside the 8-column
grid. -/
theorem c10_column_in_grid (x_pos page_width : ℚ) (hpw : 0 < page_width) :
    1 ≤ get_column_from_x x_pos page_width ∧
      get_column_from_x x_pos page_width ≤ 8 := by
  unfold get_column_from_x
  constructor
  · exact le_max_left 1 _
  · exact max_le (by norm_num) (min_le_left 8 _)

/-- Witness for C10 at a negative x position on a 100-point page. -/
theorem c10_column_in_grid_witness :
    1 ≤ get_column_from_x (-5) 100 ∧ get_column_from_x (-5) 100 ≤ 8 :=
  c10_column_in_grid (-5) 100 (by norm_num)

end PdfToExcel
